import Mathlib

/-!
Verification development for the AntiFitiness catalog storefront.

Shallow embedding of the core logic:
- the client-side cart store (src/lib/cart.ts),
- the catalog normalization step (src/lib/db/products.ts),
- the catalog filter/pagination pipeline and slug normalization
  (src/app/catalogo/page.tsx, src/app/produto/[slug]/produto-client.tsx),
- the checkout message composer (src/app/carrinho/page.tsx).

JavaScript numbers used as quantities are modeled as `Int` (all call sites
use integral values); strings are Lean `String`/`List Char`.
-/

namespace AFStore

/-! ## Cart data model (src/lib/cart.ts) -/

/-- Model of `CartItem` from src/lib/cart.ts: `{ sku, name, photo?, variantLabel?, qty }`. -/
structure CartItem where
  sku : String
  name : String
  photo : Option String := none
  variantLabel : Option String := none
  qty : Int
deriving Repr, DecidableEq

/-- Model of `keyOf` (src/lib/cart.ts lines 64-66):
`` `${item.sku}::${item.variantLabel ?? "default"}` ``. -/
def keyOf (sku : String) (variantLabel : Option String) : String :=
  sku ++ "::" ++ variantLabel.getD "default"

/-- Identity key of a stored cart line. -/
def CartItem.key (i : CartItem) : String := keyOf i.sku i.variantLabel

/-- Model of JavaScript `Array.prototype.findIndex` (`none` plays the role
of the `-1` result). -/
def findIdx0 (p : α → Bool) : List α → Option Nat
  | [] => none
  | x :: xs => if p x then some 0 else (findIdx0 p xs).map (· + 1)

/-- Model of `addToCart` (src/lib/cart.ts lines 72-85): look up the identity key with
`findIndex`; on a hit replace the stored line's qty by
`Math.max(1, current.qty + Math.max(1, input.qty))`, otherwise push
`{ ...input, qty: Math.max(1, input.qty) }`.  The storage round-trip
(`getCart`/`setCart`) is modeled as explicit list state. -/
def addToCart (items : List CartItem) (input : CartItem) : List CartItem :=
  match findIdx0 (fun i => i.key == input.key) items with
  | some idx =>
    match items[idx]? with
    | some current => items.set idx { current with qty := max 1 (current.qty + max 1 input.qty) }
    | none => items
  | none => items ++ [{ input with qty := max 1 input.qty }]

/-- Model of `updateCartItem` (src/lib/cart.ts lines 91-103): map the addressed line
to the new qty, then filter out every line with `qty ≤ 0`. -/
def updateCartItem (items : List CartItem) (sku : String)
    (variantLabel : Option String) (qty : Int) : List CartItem :=
  (items.map fun i => if i.key == keyOf sku variantLabel then { i with qty := qty } else i).filter
    (fun i => 0 < i.qty)

/-- Model of `removeCartItem` (src/lib/cart.ts lines 113-117): drop every line whose
key equals the addressed key. -/
def removeCartItem (items : List CartItem) (sku : String)
    (variantLabel : Option String) : List CartItem :=
  items.filter (fun i => !(i.key == keyOf sku variantLabel))

/-- Model of `clearCart` (src/lib/cart.ts lines 122-124): `setCart([])`. -/
def clearCart : List CartItem := []

/-! ## String utilities

Models of the JavaScript string built-ins used by the repository's helpers
(`trim`, `toLowerCase` restricted to ASCII as in the repository's data,
`decodeURIComponent`, `includes`), and the repository's own helpers
`normalizeSlug` / `normalizeText` built from them. -/

/-- JavaScript `String.prototype.trim`: drop leading and trailing
whitespace. -/
def jsTrim (l : List Char) : List Char :=
  ((l.dropWhile Char.isWhitespace).reverse.dropWhile Char.isWhitespace).reverse

/-- JavaScript `String.prototype.toLowerCase`, modeled on the basic latin
range (the only range exercised by the repository's slugs and queries). -/
def jsLower (l : List Char) : List Char :=
  l.map Char.toLower

/-- Value of a hexadecimal digit character, `none` for a non-digit. -/
def hexDigit? (c : Char) : Option Nat :=
  if '0' ≤ c ∧ c ≤ '9' then some (c.toNat - 48)
  else if 'a' ≤ c ∧ c ≤ 'f' then some (c.toNat - 87)
  else if 'A' ≤ c ∧ c ≤ 'F' then some (c.toNat - 55)
  else none

/-- Valid range of the second byte of a three-byte UTF-8 sequence, given
its lead byte (strict decoding: no overlong forms, no surrogates). -/
def cont2Ok (b1 n : Nat) : Bool :=
  if b1 = 224 then decide (160 ≤ n) && decide (n ≤ 191)
  else if b1 = 237 then decide (128 ≤ n) && decide (n ≤ 159)
  else decide (128 ≤ n) && decide (n ≤ 191)

/-- Valid range of the second byte of a four-byte UTF-8 sequence, given its
lead byte. -/
def cont3Ok (b1 n : Nat) : Bool :=
  if b1 = 240 then decide (144 ≤ n) && decide (n ≤ 191)
  else if b1 = 244 then decide (128 ≤ n) && decide (n ≤ 143)
  else decide (128 ≤ n) && decide (n ≤ 191)

/-- Plain continuation-byte range `0x80..0xBF`. -/
def contOk (n : Nat) : Bool :=
  decide (128 ≤ n) && decide (n ≤ 191)

/-- Decode one percent-escape cluster at the head of the input (which must
start with `%`): two hex digits give a byte, and bytes with the high bit
set must form a strictly valid UTF-8 sequence spelled out as further `%XX`
escapes (no overlong forms, no surrogates).  Returns the decoded code
point and the remaining input; `none` models a thrown `URIError`. -/
def pctGroup? : List Char → Option (Nat × List Char)
  | '%' :: h1 :: h2 :: cs2 =>
    match hexDigit? h1, hexDigit? h2 with
    | some a, some b =>
      let b1 := 16 * a + b
      if b1 < 128 then some (b1, cs2)
      else if 194 ≤ b1 ∧ b1 ≤ 223 then
        match cs2 with
        | '%' :: h3 :: h4 :: cs3 =>
          match hexDigit? h3, hexDigit? h4 with
          | some a2, some b2 =>
            let b2v := 16 * a2 + b2
            if contOk b2v then some ((b1 - 192) * 64 + (b2v - 128), cs3)
            else none
          | _, _ => none
        | _ => none
      else if 224 ≤ b1 ∧ b1 ≤ 239 then
        match cs2 with
        | '%' :: h3 :: h4 :: '%' :: h5 :: h6 :: cs3 =>
          match hexDigit? h3, hexDigit? h4, hexDigit? h5, hexDigit? h6 with
          | some a2, some b2, some a3, some b3 =>
            let b2v := 16 * a2 + b2
            let b3v := 16 * a3 + b3
            if cont2Ok b1 b2v && contOk b3v then
              some ((b1 - 224) * 4096 + (b2v - 128) * 64 + (b3v - 128), cs3)
            else none
          | _, _, _, _ => none
        | _ => none
      else if 240 ≤ b1 ∧ b1 ≤ 244 then
        match cs2 with
        | '%' :: h3 :: h4 :: '%' :: h5 :: h6 :: '%' :: h7 :: h8 :: cs3 =>
          match hexDigit? h3, hexDigit? h4, hexDigit? h5, hexDigit? h6,
              hexDigit? h7, hexDigit? h8 with
          | some a2, some b2, some a3, some b3, some a4, some b4 =>
            let b2v := 16 * a2 + b2
            let b3v := 16 * a3 + b3
            let b4v := 16 * a4 + b4
            if cont3Ok b1 b2v && contOk b3v && contOk b4v then
              some ((b1 - 240) * 262144 + (b2v - 128) * 4096 +
                (b3v - 128) * 64 + (b4v - 128), cs3)
            else none
          | _, _, _, _, _, _ => none
        | _ => none
      else none
    | _, _ => none
  | _ => none

/-- Fuel-indexed percent-decoding loop: every character other than `%` is
copied verbatim, a `%` consumes a whole escape cluster via `pctGroup?`.
The fuel only bounds the recursion depth; it is set to the input length by
`pctDecode`, which always suffices because each step consumes at least one
character. -/
def pdF : Nat → List Char → Option (List Char)
  | _, [] => some []
  | 0, _ :: _ => none
  | fuel + 1, c :: cs =>
    if c = '%' then
      match pctGroup? (c :: cs) with
      | some (n, rest) =>
        match pdF fuel rest with
        | some t => some (Char.ofNat n :: t)
        | none => none
      | none => none
    else
      match pdF fuel cs with
      | some t => some (c :: t)
      | none => none

/-- Model of the JavaScript built-in `decodeURIComponent`; `none` models
the thrown `URIError`. -/
def pctDecode (l : List Char) : Option (List Char) :=
  pdF l.length l

def stripQueryHash (input : String) : List Char :=
  (input.data.takeWhile fun c => !(c = '?')).takeWhile fun c => !(c = '#')

def normalizeSlug (input : String) : String :=
  match pctDecode (stripQueryHash input) with
  | some d => String.mk (jsLower (jsTrim d))
  | none => String.mk (jsLower (jsTrim (stripQueryHash input)))

/-- Does `sub` occur as a leading segment of `s`? -/
def startsWithList : List Char → List Char → Bool
  | _, [] => true
  | [], _ :: _ => false
  | a :: as, b :: bs => a == b && startsWithList as bs

/-- Does `sub` occur as a contiguous segment of `s`? -/
def containsSeg (s sub : List Char) : Bool :=
  match s with
  | [] => sub.isEmpty
  | _ :: tail => startsWithList s sub || containsSeg tail sub

/-- JavaScript `String.prototype.includes`. -/
def strIncludes (s sub : String) : Bool :=
  containsSeg s.data sub.data

/-- Model of `normalizeText` (src/app/catalogo/page.tsx lines 61-63):
`input.trim().toLowerCase()`; the non-string guard returning `""` is
outside this `String`-typed model. -/
def normalizeText (s : String) : String :=
  String.mk (jsLower (jsTrim s.data))

/-! ## Catalog normalization (src/lib/db/products.ts) -/

/-- Raw product row as read from the `products` table.  The code guards
`p.name ?? ""` / `p.description ?? ""`, so both are modeled nullable. -/
structure DbProduct where
  sku : String
  name : Option String
  description : Option String
  photo_url : Option String
  category : Option String
deriving Repr, DecidableEq

/-- JavaScript `a || b` on a nullable string: `b` when `a` is
null/undefined or the empty string (falsy), else `a`. -/
def jsOrString (a : Option String) (b : String) : String :=
  match a with
  | none => b
  | some s => if s = "" then b else s

/-- The `images` field computed by `fetchCatalogProducts`
(src/lib/db/products.ts lines 169 and 195):
`const imageUrl = p.photo_url || "/placeholder.png"` followed by
`images: [imageUrl]`. -/
def productImages (p : DbProduct) : List String :=
  [jsOrString p.photo_url "/placeholder.png"]

/-! ## Catalog filter and pagination (src/app/catalogo/page.tsx) -/

/-- Catalog view-model product, as consumed by the catalog page. -/
structure CatalogProduct where
  id : String
  slug : String
  name : String
  description : String
  images : List String
  category : String
deriving Repr, DecidableEq

/-- Model of `clamp` (src/app/catalogo/page.tsx lines 52-54):
`Math.min(Math.max(n, lo), hi)`. -/
def clampNum (n lo hi : Int) : Int :=
  min (max n lo) hi

/-- Constant `PAGE_SIZE` (src/app/catalogo/page.tsx line 41). -/
def PAGE_SIZE : Nat := 9

/-- The `filtered` memo (src/app/catalogo/page.tsx lines 191-204): text
match on normalized name/description (empty query matches all), AND exact
category match unless the category filter is the `"TODAS"` sentinel. -/
def filteredProducts (items : List CatalogProduct) (q category : String) :
    List CatalogProduct :=
  let query := normalizeText q
  items.filter fun p =>
    let name := normalizeText p.name
    let desc := normalizeText p.description
    let cat := p.category
    let matchesText := query == "" || strIncludes name query || strIncludes desc query
    let matchesCategory := if category == "TODAS" then true else cat == category
    matchesText && matchesCategory

/-- The `totalPages` memo (line 209):
`Math.max(1, Math.ceil(filtered.length / PAGE_SIZE))`; on natural counts
the float ceiling is exactly the rounded-up integer division. -/
def totalPages (filteredLength : Nat) : Nat :=
  max 1 ((filteredLength + PAGE_SIZE - 1) / PAGE_SIZE)

/-- The `safePage` memo (line 214): `clamp(page, 1, totalPages)`. -/
def safePage (page : Int) (tp : Nat) : Int :=
  clampNum page 1 (tp : Int)

/-- The `pageItems` memo (lines 219-223):
`filtered.slice((safePage-1)*PAGE_SIZE, safePage*PAGE_SIZE)`. -/
def pageItems (filtered : List CatalogProduct) (sp : Int) : List CatalogProduct :=
  (filtered.drop ((sp - 1) * (PAGE_SIZE : Int)).toNat).take PAGE_SIZE

/-! ## Checkout message composer (src/app/carrinho/page.tsx) -/

/-- The fixed availability disclaimer (line 8). -/
def WHATS_AVAILABILITY_NOTE : String := "Verificar disponibilidade no WhatsApp."

/-- Model of `getQty` (lines 38-44) on a canonical cart line:
`Math.max(0, Math.floor(qty))`; `Math.floor` is the identity on the `Int`
model. -/
def getQty (i : CartItem) : Int := max 0 i.qty

/-- Model of `getName` (lines 51-54) on a canonical cart line. -/
def getName (i : CartItem) : String := i.name

/-- Model of `getVariantLabel` (lines 56-59) on a canonical cart line:
`variantLabel ?? "Padrão"`. -/
def getVariantLabel (i : CartItem) : String := i.variantLabel.getD "Padrão"

/-- JavaScript `field || "(não informado)"` used for each address field. -/
def orNotInformed (s : String) : String :=
  if s = "" then "(não informado)" else s

/-- One itemized message line (line 118):
`` `- ${getQty(i)}x ${getName(i)} — ${getVariantLabel(i)}` ``. -/
def cartLineText (i : CartItem) : String :=
  "- " ++ toString (getQty i) ++ "x " ++ getName i ++ " — " ++ getVariantLabel i

/-- Model of `totalItems` (line 81): `items.reduce((acc, i) => acc + getQty(i), 0)`. -/
def totalItems (items : List CartItem) : Int :=
  items.foldl (fun acc i => acc + getQty i) 0

/-- The line array joined by `buildMessage` for the local-delivery
(`city === "RIO_PRETO"`) shape (src/app/carrinho/page.tsx lines 120-138). -/
def msgLinesLocal (items : List CartItem)
    (bairro numeroCasa referencia periodo : String) : List String :=
  ["Pedido – Catálogo (Entrega local)", "",
   "Cidade: São José do Rio Preto - SP", "", "Itens:"]
  ++ items.map cartLineText
  ++ ["", "Total de itens: " ++ toString (totalItems items), "",
      WHATS_AVAILABILITY_NOTE, "", "Endereço:",
      "- Bairro/Endereço: " ++ orNotInformed bairro,
      "- Nº: " ++ orNotInformed numeroCasa,
      "- Referência: " ++ orNotInformed referencia,
      "- Preferência de período: " ++ orNotInformed periodo]

/-- Model of `buildMessage` for the local-delivery shape: the lines joined with
`"\n"`. -/
def buildMessageLocal (items : List CartItem)
    (bairro numeroCasa referencia periodo : String) : String :=
  String.intercalate "\n" (msgLinesLocal items bairro numeroCasa referencia periodo)

/-! ## Persisted-cart read (src/lib/cart.ts lines 40-50) -/

/-- JSON values, as produced by the `JSON.parse` built-in. -/
inductive Json where
  | null
  | bool (b : Bool)
  | num (n : Int)
  | str (s : String)
  | arr (elems : List Json)
  | obj (fields : List (String × Json))

/-- Outcome of the `localStorage` read performed by `getCart`:
no `window` (server side), the read or the parse threw, `getItem` returned
`null`, or it returned a string. -/
inductive StorageRead where
  | noWindow
  | throwsOnRead
  | absent
  | value (raw : String)

/-- Model of `getCart` (src/lib/cart.ts lines 40-50): return `[]` without a window;
inside `try`, return `[]` for a falsy raw value, parse the raw string
(a throw from `getItem` or `JSON.parse` is caught and yields `[]`), and
return the parsed value only when `Array.isArray` holds, else `[]`.
`JSON.parse` is a built-in, passed in as `parse` (errors model throws). -/
def getCart (read : StorageRead) (parse : String → Except String Json) : List Json :=
  match read with
  | .noWindow => []
  | .throwsOnRead => []
  | .absent => []
  | .value raw =>
    if raw = "" then []
    else
      match parse raw with
      | .error _ => []
      | .ok (.arr xs) => xs
      | .ok _ => []

/-! ## Cart storage invariant (spec section 3) -/

/-- The cart storage invariant: stored identity keys are pairwise distinct
and every stored line has a positive quantity. -/
def CartInv (items : List CartItem) : Prop :=
  items.Pairwise (fun a b => a.key ≠ b.key) ∧ ∀ i ∈ items, 0 < i.qty

instance : DecidablePred CartInv := fun items => by
  unfold CartInv
  exact instDecidableAnd

/-! ### Basic facts about `addToCart` -/

theorem findIdx0_eq_none {p : α → Bool} {l : List α}
    (h : ∀ x ∈ l, ¬ p x) : findIdx0 p l = none := by
  induction l with
  | nil => rfl
  | cons x xs ih =>
    simp only [findIdx0]
    rw [if_neg (by simpa using h x (by simp))]
    rw [ih (fun y hy => h y (by simp [hy]))]
    rfl

/-- A line whose key differs from the input's key passes through `addToCart`
untouched at the head. -/
theorem addToCart_cons_ne {x : CartItem} {rest : List CartItem} {input : CartItem}
    (h : x.key ≠ input.key) :
    addToCart (x :: rest) input = x :: addToCart rest input := by
  simp only [addToCart, findIdx0]
  rw [if_neg (by simpa using h)]
  cases hf : findIdx0 (fun i => i.key == input.key) rest with
  | none => simp
  | some j =>
    simp only [Option.map_some']
    cases hg : rest[j]? with
    | none => simp [hg]
    | some current => simp [hg, List.set_cons_succ]

/-- A line whose key equals the input's key is merged in place by `addToCart`. -/
theorem addToCart_cons_eq {x : CartItem} {rest : List CartItem} {input : CartItem}
    (h : x.key = input.key) :
    addToCart (x :: rest) input =
      { x with qty := max 1 (x.qty + max 1 input.qty) } :: rest := by
  simp only [addToCart, findIdx0]
  rw [if_pos (by simpa using h)]
  simp

/-- When no stored line matches the input's key, `addToCart` appends a fresh
line with qty floored to 1. -/
theorem addToCart_of_not_mem {items : List CartItem} {input : CartItem}
    (h : ∀ i ∈ items, i.key ≠ input.key) :
    addToCart items input = items ++ [{ input with qty := max 1 input.qty }] := by
  simp only [addToCart]
  rw [findIdx0_eq_none (by simpa using h)]

/-! ### Character-level facts -/

theorem toNat_ofNat_of_lt {n : Nat} (h : n < 55296) : (Char.ofNat n).toNat = n := by
  have hv : n.isValidChar := Or.inl h
  rw [Char.ofNat, dif_pos hv]
  rfl

theorem toLower_toNat_of_upper {c : Char} (h : 65 ≤ c.toNat ∧ c.toNat ≤ 90) :
    (Char.toLower c).toNat = c.toNat + 32 := by
  unfold Char.toLower
  rw [if_pos ⟨h.1, h.2⟩]
  exact toNat_ofNat_of_lt (by omega)

theorem toLower_eq_self_of_not_upper {c : Char} (h : ¬ (65 ≤ c.toNat ∧ c.toNat ≤ 90)) :
    Char.toLower c = c := by
  unfold Char.toLower
  rw [if_neg h]

theorem char_ne_of_toNat_ne {c d : Char} (h : c.toNat ≠ d.toNat) : c ≠ d :=
  fun e => h (congrArg Char.toNat e)

theorem isWhitespace_eq_false_of {c : Char}
    (h : c.toNat ≠ 32 ∧ c.toNat ≠ 9 ∧ c.toNat ≠ 13 ∧ c.toNat ≠ 10) :
    c.isWhitespace = false := by
  have h1 : c ≠ ' ' := char_ne_of_toNat_ne (by simpa using h.1)
  have h2 : c ≠ '\t' := char_ne_of_toNat_ne (by simpa using h.2.1)
  have h3 : c ≠ '\r' := char_ne_of_toNat_ne (by simpa using h.2.2.1)
  have h4 : c ≠ '\n' := char_ne_of_toNat_ne (by simpa using h.2.2.2)
  simp [Char.isWhitespace, h1, h2, h3, h4]

theorem isWhitespace_toLower (c : Char) :
    (Char.toLower c).isWhitespace = c.isWhitespace := by
  by_cases h : 65 ≤ c.toNat ∧ c.toNat ≤ 90
  · have ht := toLower_toNat_of_upper h
    rw [isWhitespace_eq_false_of (by omega), isWhitespace_eq_false_of (by omega)]
  · rw [toLower_eq_self_of_not_upper h]

theorem toLower_toLower (c : Char) : (Char.toLower c).toLower = Char.toLower c := by
  by_cases h : 65 ≤ c.toNat ∧ c.toNat ≤ 90
  · have ht := toLower_toNat_of_upper h
    exact toLower_eq_self_of_not_upper (by omega)
  · rw [toLower_eq_self_of_not_upper h, toLower_eq_self_of_not_upper h]

/-! ### Trim / lower-case algebra -/

theorem dropWhile_dropWhile (p : α → Bool) (l : List α) :
    (l.dropWhile p).dropWhile p = l.dropWhile p := by
  induction l with
  | nil => rfl
  | cons c t ih =>
    by_cases h : p c
    · simp [List.dropWhile_cons, h, ih]
    · simp [List.dropWhile_cons, h]

theorem dropWhile_head_false {p : α → Bool} {c : α} {t : List α}
    (h : (c :: t).dropWhile p = c :: t) : p c = false := by
  by_contra hb
  rw [List.dropWhile_cons, if_pos (by simpa using hb)] at h
  have hlen := congrArg List.length h
  have hle := (List.dropWhile_sublist (l := t) p).length_le
  simp at hlen
  omega

/-- Dropping trailing matches preserves the absence of leading matches. -/
theorem dropWhile_trimRight {p : α → Bool} {m : List α} (hm : m.dropWhile p = m) :
    ((m.reverse.dropWhile p).reverse).dropWhile p = (m.reverse.dropWhile p).reverse := by
  have hsplit : m.reverse.takeWhile p ++ m.reverse.dropWhile p = m.reverse :=
    List.takeWhile_append_dropWhile p m.reverse
  have hm2 : m = (m.reverse.dropWhile p).reverse ++ (m.reverse.takeWhile p).reverse := by
    have h2 := congrArg List.reverse hsplit
    rw [List.reverse_append, List.reverse_reverse] at h2
    exact h2.symm
  cases hu : (m.reverse.dropWhile p).reverse with
  | nil => rfl
  | cons c t =>
    rw [hu, List.cons_append] at hm2
    have hdm := hm
    rw [hm2] at hdm
    have hc := dropWhile_head_false hdm
    rw [List.dropWhile_cons, if_neg (by simp [hc])]

theorem jsTrim_jsTrim (l : List Char) : jsTrim (jsTrim l) = jsTrim l := by
  have h1 : (jsTrim l).dropWhile Char.isWhitespace = jsTrim l :=
    dropWhile_trimRight (dropWhile_dropWhile Char.isWhitespace l)
  show (((jsTrim l).dropWhile Char.isWhitespace).reverse.dropWhile Char.isWhitespace).reverse
      = jsTrim l
  rw [h1]
  have h2 : (jsTrim l).reverse
      = ((l.dropWhile Char.isWhitespace).reverse).dropWhile Char.isWhitespace := by
    unfold jsTrim
    rw [List.reverse_reverse]
  rw [h2, dropWhile_dropWhile, ← h2, List.reverse_reverse]

theorem jsTrim_jsLower (l : List Char) : jsTrim (jsLower l) = jsLower (jsTrim l) := by
  have hcomp : (Char.isWhitespace ∘ Char.toLower) = Char.isWhitespace :=
    funext isWhitespace_toLower
  show (((l.map Char.toLower).dropWhile Char.isWhitespace).reverse.dropWhile
      Char.isWhitespace).reverse = (((l.dropWhile Char.isWhitespace).reverse.dropWhile
      Char.isWhitespace).reverse).map Char.toLower
  rw [List.dropWhile_map, hcomp, ← List.map_reverse, List.dropWhile_map, hcomp,
    ← List.map_reverse]

theorem jsLower_jsLower (l : List Char) : jsLower (jsLower l) = jsLower l := by
  simp only [jsLower, List.map_map]
  congr 1
  funext c
  exact toLower_toLower c

theorem takeWhile_eq_self_of {p : α → Bool} {l : List α}
    (h : ∀ c ∈ l, p c = true) : l.takeWhile p = l := by
  induction l with
  | nil => rfl
  | cons c t ih =>
    rw [List.takeWhile_cons, if_pos (h c (by simp))]
    rw [ih (fun x hx => h x (by simp [hx]))]

theorem pdF_of_no_pct : ∀ (fuel : Nat) (l : List Char), (∀ c ∈ l, c ≠ '%') →
    l.length ≤ fuel → pdF fuel l = some l := by
  intro fuel
  induction fuel with
  | zero =>
    intro l h hlen
    cases l with
    | nil => rfl
    | cons c t => simp at hlen
  | succ f ih =>
    intro l h hlen
    cases l with
    | nil => rfl
    | cons c t =>
      have hc : ¬ (c = '%') := h c (by simp)
      show (if c = '%' then _ else match pdF f t with
        | some r => some (c :: r)
        | none => none) = some (c :: t)
      rw [if_neg hc, ih t (fun x hx => h x (by simp [hx])) (by simpa using hlen)]

theorem pctDecode_of_no_pct {l : List Char} (h : ∀ c ∈ l, c ≠ '%') :
    pctDecode l = some l :=
  pdF_of_no_pct l.length l h (Nat.le_refl _)

/-- Every output of `normalizeSlug` is a lower-cased trimmed character
list. -/
theorem normalizeSlug_shape (x : String) :
    ∃ z, (normalizeSlug x).data = jsLower (jsTrim z) := by
  unfold normalizeSlug
  cases hd : pctDecode (stripQueryHash x) with
  | none => exact ⟨stripQueryHash x, rfl⟩
  | some d => exact ⟨d, rfl⟩

/-- A trimmed, lower-cased string free of `%`, `?` and `#` is a fixed point
of `normalizeSlug`. -/
theorem normalizeSlug_fixed (y : String)
    (hy : ∀ c ∈ y.data, ¬ (c = '%') ∧ ¬ (c = '?') ∧ ¬ (c = '#'))
    (hshape : ∃ z, y.data = jsLower (jsTrim z)) :
    normalizeSlug y = y := by
  obtain ⟨z, hz⟩ := hshape
  have h1 : y.data.takeWhile (fun c => !(c = '?')) = y.data :=
    takeWhile_eq_self_of (fun c hc => by simp [(hy c hc).2.1])
  have h2 : y.data.takeWhile (fun c => !(c = '#')) = y.data :=
    takeWhile_eq_self_of (fun c hc => by simp [(hy c hc).2.2])
  have hstrip : stripQueryHash y = y.data := by
    unfold stripQueryHash
    rw [h1, h2]
  have hdec : pctDecode (stripQueryHash y) = some y.data := by
    rw [hstrip]
    exact pctDecode_of_no_pct (fun c hc => (hy c hc).1)
  unfold normalizeSlug
  rw [hdec]
  have hfix : jsLower (jsTrim y.data) = y.data := by
    rw [hz, jsTrim_jsLower, jsLower_jsLower, jsTrim_jsTrim]
  exact congrArg String.mk hfix

/-! ### Membership and key facts about the cart operations -/

/-- `addToCart` merges into the first line whose key matches the input. -/
theorem addToCart_found (pre : List CartItem) (cur : CartItem) (post : List CartItem)
    (input : CartItem) (hpre : ∀ i ∈ pre, i.key ≠ input.key) (hcur : cur.key = input.key) :
    addToCart (pre ++ cur :: post) input =
      pre ++ { cur with qty := max 1 (cur.qty + max 1 input.qty) } :: post := by
  induction pre with
  | nil => simpa using addToCart_cons_eq hcur
  | cons x rest ih =>
    rw [List.cons_append, addToCart_cons_ne (hpre x (by simp)), List.cons_append,
      ih (fun i hi => hpre i (by simp [hi]))]

/-- Every line of `addToCart items input` is an untouched old line, the
freshly inserted line, or the merged line; in each case its key is an old
key or the input's key and its quantity is positive unless it was an
untouched old line. -/
theorem mem_addToCart {items : List CartItem} {input b : CartItem}
    (hb : b ∈ addToCart items input) :
    b ∈ items ∨ (b.key = input.key ∧ 0 < b.qty) ∨ ∃ j ∈ items, b.key = j.key ∧ 0 < b.qty := by
  induction items with
  | nil =>
    rw [addToCart_of_not_mem (by simp)] at hb
    simp only [List.nil_append, List.mem_singleton] at hb
    subst hb
    exact Or.inr (Or.inl ⟨rfl, lt_of_lt_of_le Int.one_pos (le_max_left _ _)⟩)
  | cons y s ih =>
    by_cases hk : y.key = input.key
    · rw [addToCart_cons_eq hk] at hb
      rcases List.mem_cons.mp hb with hb | hb
      · subst hb
        exact Or.inr (Or.inr ⟨y, by simp,
          ⟨rfl, lt_of_lt_of_le Int.one_pos (le_max_left _ _)⟩⟩)
      · exact Or.inl (by simp [hb])
    · rw [addToCart_cons_ne hk] at hb
      rcases List.mem_cons.mp hb with hb | hb
      · exact Or.inl (by simp [hb])
      · rcases ih hb with h | h | ⟨j, hj, hjk⟩
        · exact Or.inl (by simp [h])
        · exact Or.inr (Or.inl h)
        · exact Or.inr (Or.inr ⟨j, by simp [hj], hjk⟩)

/-- The storage invariant is preserved by `addToCart`. -/
theorem CartInv_addToCart (input : CartItem) :
    ∀ {items : List CartItem}, CartInv items → CartInv (addToCart items input) := by
  intro items
  induction items with
  | nil =>
    intro _
    rw [addToCart_of_not_mem (by simp)]
    constructor
    · simp
    · intro i hi
      simp only [List.nil_append, List.mem_singleton] at hi
      subst hi
      exact lt_of_lt_of_le Int.one_pos (le_max_left _ _)
  | cons y s ih =>
    intro h
    have hpw := List.pairwise_cons.mp h.1
    have hpos := h.2
    by_cases hk : y.key = input.key
    · rw [addToCart_cons_eq hk]
      constructor
      · rw [List.pairwise_cons]
        exact ⟨fun b hb => hpw.1 b hb, hpw.2⟩
      · intro i hi
        rcases List.mem_cons.mp hi with hi | hi
        · subst hi
          exact lt_of_lt_of_le Int.one_pos (le_max_left _ _)
        · exact hpos i (by simp [hi])
    · rw [addToCart_cons_ne hk]
      have hrec := ih ⟨hpw.2, fun i hi => hpos i (by simp [hi])⟩
      constructor
      · rw [List.pairwise_cons]
        refine ⟨?_, hrec.1⟩
        intro b hb
        rcases mem_addToCart hb with hmem | ⟨hbk, _⟩ | ⟨j, hj, hjk, _⟩
        · exact hpw.1 b hmem
        · rw [hbk]
          exact hk
        · rw [hjk]
          exact hpw.1 j hj
      · intro i hi
        rcases List.mem_cons.mp hi with hi | hi
        · subst hi
          exact hpos i (by simp)
        · rcases mem_addToCart hi with hmem | ⟨_, hq⟩ | ⟨_, _, _, hq⟩
          · exact hpos i (by simp [hmem])
          · exact hq
          · exact hq

/-- Mapping a line to a new quantity never changes its identity key. -/
theorem key_update (a : CartItem) (k : String) (q : Int) :
    (if a.key == k then { a with qty := q } else a).key = a.key := by
  split <;> rfl

/-- The storage invariant is preserved by `updateCartItem`. -/
theorem CartInv_updateCartItem {items : List CartItem} (h : CartInv items)
    (sku : String) (vl : Option String) (q : Int) :
    CartInv (updateCartItem items sku vl q) := by
  unfold updateCartItem
  constructor
  · apply List.Pairwise.filter
    apply h.1.map
    intro a b hab
    rw [key_update, key_update]
    exact hab
  · intro i hi
    rw [List.mem_filter] at hi
    simpa using hi.2

/-- The storage invariant is preserved by `removeCartItem`. -/
theorem CartInv_removeCartItem {items : List CartItem} (h : CartInv items)
    (sku : String) (vl : Option String) :
    CartInv (removeCartItem items sku vl) := by
  unfold removeCartItem
  constructor
  · exact h.1.filter _
  · intro i hi
    rw [List.mem_filter] at hi
    exact h.2 i hi.1

/-- Indexing into a dropped list. -/
theorem drop_getElem? (l : List α) : ∀ (i j : Nat), (l.drop i)[j]? = l[i + j]? := by
  induction l with
  | nil =>
    intro i j
    simp
  | cons c t ih =>
    intro i j
    cases i with
    | zero => simp
    | succ i' =>
      rw [List.drop_succ_cons, ih i' j]
      have harith : i' + 1 + j = (i' + j) + 1 := by omega
      rw [harith, List.getElem?_cons_succ]

/-! ## Claims -/

/-- C1: when a line with the same identity key (sku, variantLabel-or-default)
already exists, `addToCart` replaces the first such line's stored quantity
with `max 1 (existingQty + max 1 requestedQty)` and changes nothing else;
when no such line exists it appends a new line with quantity
`max 1 requestedQty`; in particular, from the empty cart, adding
(sku "A", "250g", qty 1) and then (sku "A", "250g", qty 2) yields exactly
one line with quantity 3. -/
theorem claim_C1 :
    (∀ (items : List CartItem) (input : CartItem),
        (∀ i ∈ items, i.key ≠ input.key) →
        addToCart items input = items ++ [{ input with qty := max 1 input.qty }])
  ∧ (∀ (pre : List CartItem) (cur : CartItem) (post : List CartItem) (input : CartItem),
        (∀ i ∈ pre, i.key ≠ input.key) → cur.key = input.key →
        addToCart (pre ++ cur :: post) input =
          pre ++ { cur with qty := max 1 (cur.qty + max 1 input.qty) } :: post)
  ∧ addToCart (addToCart [] { sku := "A", name := "A", variantLabel := some "250g", qty := 1 })
        { sku := "A", name := "A", variantLabel := some "250g", qty := 2 } =
      [{ sku := "A", name := "A", variantLabel := some "250g", qty := 3 }] :=
  ⟨fun _ _ h => addToCart_of_not_mem h,
   fun pre cur post input h1 h2 => addToCart_found pre cur post input h1 h2,
   by decide⟩

/-- Witness for C1 at a concrete one-line cart. -/
theorem claim_C1_witness :
    (∀ i ∈ ([] : List CartItem),
        i.key ≠ ({ sku := "B", name := "B", qty := (2 : Int) } : CartItem).key)
  ∧ addToCart [{ sku := "B", name := "B", qty := 5 }] { sku := "B", name := "B", qty := 2 } =
      [{ sku := "B", name := "B", qty := 7 }] := by
  constructor
  · simp
  · have h := claim_C1.2.1 [] { sku := "B", name := "B", qty := (5 : Int) } []
      { sku := "B", name := "B", qty := (2 : Int) } (by simp) rfl
    simp only [List.nil_append] at h
    rw [h]
    decide

/-- C2 counterexample: `normalizeSlug` is not idempotent.  The input
`"%3F"` normalizes to `"?"` (the escape is decoded), but normalizing
`"?"` again strips it as a query separator, giving `""`. -/
theorem claim_C2_counterexample :
    normalizeSlug (normalizeSlug "%3F") ≠ normalizeSlug "%3F" := by decide

/-- C2 (amended): `normalizeSlug` is idempotent on every input whose
normalized form contains no `%`, `?` or `#` character (re-decoding and
query/fragment re-stripping are the only sources of change on a second
pass). -/
theorem claim_C2 (x : String)
    (h : ∀ c ∈ (normalizeSlug x).data, ¬ (c = '%') ∧ ¬ (c = '?') ∧ ¬ (c = '#')) :
    normalizeSlug (normalizeSlug x) = normalizeSlug x :=
  normalizeSlug_fixed (normalizeSlug x) h (normalizeSlug_shape x)

/-- Witness for C2 on a concrete input. -/
theorem claim_C2_witness :
    (∀ c ∈ (normalizeSlug "  Abc D ").data, ¬ (c = '%') ∧ ¬ (c = '?') ∧ ¬ (c = '#'))
  ∧ normalizeSlug (normalizeSlug "  Abc D ") = normalizeSlug "  Abc D " :=
  ⟨by decide, claim_C2 "  Abc D " (by decide)⟩

/-- C3 counterexample: a `photo_url` of a single space is whitespace-only
(trimming gives the empty string), yet the computed images list is
`[" "]` — the raw value, not the placeholder: the code tests
`p.photo_url || "/placeholder.png"` without trimming. -/
theorem claim_C3_counterexample :
    jsTrim (" ").data = []
  ∧ productImages ⟨"P", some "N", some "D", some " ", none⟩ = [" "]
  ∧ productImages ⟨"P", some "N", some "D", some " ", none⟩ ≠ ["/placeholder.png"] :=
  ⟨by decide, rfl, by decide⟩

/-- C3 (amended): the normalized images list is `[photo_url]` whenever
`photo_url` is present and non-empty — without trimming, so a
whitespace-only URL is kept verbatim — and `["/placeholder.png"]` when
`photo_url` is null or the empty string. -/
theorem claim_C3 (p : DbProduct) :
    (p.photo_url = none ∨ p.photo_url = some "" → productImages p = ["/placeholder.png"])
  ∧ (∀ s, p.photo_url = some s → ¬ (s = "") → productImages p = [s]) := by
  constructor
  · intro h
    rcases h with h | h <;> simp [productImages, jsOrString, h]
  · intro s hs hne
    simp [productImages, jsOrString, hs, hne]

/-- Witness for C3 on a concrete record. -/
theorem claim_C3_witness :
    productImages ⟨"P", none, none, some "https://x/img.png", none⟩ = ["https://x/img.png"] :=
  (claim_C3 _).2 "https://x/img.png" rfl (by decide)

/-- C4 counterexample: associativity fails once per-call flooring engages.
With requested quantities 0 then 1 on a fresh identity, sequential adds
store quantity 2 (the 0 is floored to 1, then merged with another floored
1), while a single add of 0+1 stores quantity 1. -/
theorem claim_C4_counterexample :
    addToCart (addToCart [] { sku := "A", name := "A", qty := 0 })
        { sku := "A", name := "A", qty := 1 } ≠
      addToCart [] { sku := "A", name := "A", qty := 0 + 1 } := by decide

/-- C4 (amended): on a cart whose lines all carry quantity at least 1 (the
storage invariant) and for requested quantities `a, b ≥ 1` — where the
per-call flooring is a no-op — adding `a` and then `b` to the same
identity yields exactly the state of a single add of `a + b`. -/
theorem claim_C4 (items : List CartItem) (base : CartItem) (a b : Int)
    (hitems : ∀ i ∈ items, 1 ≤ i.qty) (ha : 1 ≤ a) (hb : 1 ≤ b) :
    addToCart (addToCart items { base with qty := a }) { base with qty := b } =
      addToCart items { base with qty := a + b } := by
  induction items with
  | nil =>
    have hinner : addToCart [] ({ base with qty := a } : CartItem)
        = [{ base with qty := max 1 a }] := by
      rw [addToCart_of_not_mem (by simp)]
      simp
    rw [hinner,
      addToCart_cons_eq (show ({ base with qty := max 1 a } : CartItem).key
        = ({ base with qty := b } : CartItem).key from rfl),
      addToCart_of_not_mem (by simp)]
    show [{ base with qty := max 1 (max 1 a + max 1 b) }]
        = [] ++ [{ base with qty := max 1 (a + b) }]
    rw [max_eq_right ha, max_eq_right hb,
      max_eq_right (show (1 : Int) ≤ a + b by omega), List.nil_append]
  | cons x t ih =>
    have hxpos : 1 ≤ x.qty := hitems x (by simp)
    by_cases hk : x.key = base.key
    · rw [addToCart_cons_eq (show x.key = ({ base with qty := a } : CartItem).key from hk),
        addToCart_cons_eq (show ({ x with qty := max 1 (x.qty + max 1 a) } : CartItem).key
          = ({ base with qty := b } : CartItem).key from hk),
        addToCart_cons_eq (show x.key = ({ base with qty := a + b } : CartItem).key from hk)]
      show ({ x with qty := max 1 (max 1 (x.qty + max 1 a) + max 1 b) } :: t)
          = ({ x with qty := max 1 (x.qty + max 1 (a + b)) } :: t)
      rw [max_eq_right ha, max_eq_right hb,
        max_eq_right (show (1 : Int) ≤ a + b by omega),
        max_eq_right (show (1 : Int) ≤ x.qty + a by omega),
        max_eq_right (show (1 : Int) ≤ x.qty + a + b by omega),
        max_eq_right (show (1 : Int) ≤ x.qty + (a + b) by omega),
        show x.qty + a + b = x.qty + (a + b) by omega]
    · rw [addToCart_cons_ne (show ¬ x.key = ({ base with qty := a } : CartItem).key from hk),
        addToCart_cons_ne (show ¬ x.key = ({ base with qty := b } : CartItem).key from hk),
        addToCart_cons_ne (show ¬ x.key = ({ base with qty := a + b } : CartItem).key from hk),
        ih (fun i hi => hitems i (by simp [hi]))]

/-- Witness for C4 at concrete quantities 2 and 3. -/
theorem claim_C4_witness :
    (∀ i ∈ ([] : List CartItem), 1 ≤ i.qty) ∧ ((1 : Int) ≤ 2) ∧ ((1 : Int) ≤ 3)
  ∧ addToCart (addToCart [] { sku := "A", name := "A", qty := 2 })
        { sku := "A", name := "A", qty := 3 } =
      addToCart [] { sku := "A", name := "A", qty := 2 + 3 } :=
  ⟨by simp, by decide, by decide,
   claim_C4 [] { sku := "A", name := "A", qty := 0 } 2 3 (by simp) (by decide) (by decide)⟩

/-- C6: `updateCartItem` with `newQty ≤ 0` removes the addressed line — no
line with that identity key remains afterwards; with `newQty > 0` it
replaces the stored quantity outright (never sums): every surviving line
with the addressed key carries exactly the new quantity, and every
previously stored line with that key survives with its quantity replaced. -/
theorem claim_C6 (items : List CartItem) (sku : String) (vl : Option String) (q : Int) :
    (q ≤ 0 → ∀ i ∈ updateCartItem items sku vl q, ¬ (i.key = keyOf sku vl))
  ∧ (0 < q →
      (∀ i ∈ updateCartItem items sku vl q, i.key = keyOf sku vl → i.qty = q)
    ∧ (∀ i ∈ items, i.key = keyOf sku vl →
        { i with qty := q } ∈ updateCartItem items sku vl q)) := by
  constructor
  · intro hq i hi hkey
    unfold updateCartItem at hi
    rw [List.mem_filter] at hi
    obtain ⟨hmem, hpos⟩ := hi
    rw [List.mem_map] at hmem
    obtain ⟨j, hj, hji⟩ := hmem
    by_cases hjk : j.key = keyOf sku vl
    · rw [if_pos (by simp [hjk])] at hji
      rw [← hji] at hpos
      simp at hpos
      omega
    · rw [if_neg (by simp [hjk])] at hji
      rw [← hji] at hkey
      exact hjk hkey
  · intro hq
    constructor
    · intro i hi hkey
      unfold updateCartItem at hi
      rw [List.mem_filter] at hi
      obtain ⟨hmem, _⟩ := hi
      rw [List.mem_map] at hmem
      obtain ⟨j, hj, hji⟩ := hmem
      by_cases hjk : j.key = keyOf sku vl
      · rw [if_pos (by simp [hjk])] at hji
        rw [← hji]
      · rw [if_neg (by simp [hjk])] at hji
        rw [← hji] at hkey
        exact absurd hkey hjk
    · intro i hi hkey
      unfold updateCartItem
      rw [List.mem_filter]
      constructor
      · rw [List.mem_map]
        exact ⟨i, hi, by rw [if_pos (by simp [hkey])]⟩
      · simp [hq]

/-- Witness for C6 at a concrete one-line cart. -/
theorem claim_C6_witness :
    ((0 : Int) ≤ 0)
  ∧ (∀ i ∈ updateCartItem [{ sku := "A", name := "A", qty := 2 }] "A" none 0,
      ¬ (i.key = keyOf "A" none)) :=
  ⟨by decide,
   (claim_C6 [{ sku := "A", name := "A", qty := 2 }] "A" none 0).1 (by decide)⟩

/-- C7: every mutating cart operation (`addToCart`, `updateCartItem`,
`removeCartItem`, `clearCart`) preserves the storage invariant: pairwise
distinct identity keys and strictly positive stored quantities. -/
theorem claim_C7 (items : List CartItem) (hinv : CartInv items) :
    (∀ input, CartInv (addToCart items input))
  ∧ (∀ sku vl q, CartInv (updateCartItem items sku vl q))
  ∧ (∀ sku vl, CartInv (removeCartItem items sku vl))
  ∧ CartInv clearCart :=
  ⟨fun input => CartInv_addToCart input hinv,
   fun sku vl q => CartInv_updateCartItem hinv sku vl q,
   fun sku vl => CartInv_removeCartItem hinv sku vl,
   by constructor <;> simp [clearCart]⟩

/-- Witness for C7 at a concrete one-line cart. -/
theorem claim_C7_witness :
    CartInv [({ sku := "A", name := "A", qty := 1 } : CartItem)]
  ∧ CartInv (addToCart [{ sku := "A", name := "A", qty := 1 }]
      { sku := "A", name := "B", variantLabel := some "x", qty := 4 }) :=
  ⟨by decide,
   (claim_C7 [{ sku := "A", name := "A", qty := 1 }] (by decide)).1
     { sku := "A", name := "B", variantLabel := some "x", qty := 4 }⟩

/-- C8: `getCart` returns the persisted array verbatim when the raw value
parses to an array, and returns `[]` in every failure mode — no window,
the read or parse threw, the stored value is absent or falsy, the parse
errors, or the parsed value is not an array; being a total function of the
read outcome, it never throws. -/
theorem claim_C8 (parse : String → Except String Json) (raw : String) :
    (∀ xs, ¬ (raw = "") → parse raw = .ok (.arr xs) → getCart (.value raw) parse = xs)
  ∧ getCart .noWindow parse = []
  ∧ getCart .throwsOnRead parse = []
  ∧ getCart .absent parse = []
  ∧ getCart (.value "") parse = []
  ∧ (∀ e, parse raw = .error e → getCart (.value raw) parse = [])
  ∧ (∀ v, parse raw = .ok v → (∀ xs, ¬ (v = Json.arr xs)) →
      getCart (.value raw) parse = []) := by
  refine ⟨?_, rfl, rfl, rfl, by simp [getCart], ?_, ?_⟩
  · intro xs hraw hp
    simp [getCart, hraw, hp]
  · intro e hp
    by_cases hraw : raw = ""
    · simp [getCart, hraw]
    · simp [getCart, hraw, hp]
  · intro v hp hv
    by_cases hraw : raw = ""
    · simp [getCart, hraw]
    · cases v <;> first
        | exact absurd rfl (hv _)
        | simp [getCart, hraw, hp]

/-- Witness for C8 with a concrete parse outcome. -/
theorem claim_C8_witness :
    ¬ (("[1]" : String) = "")
  ∧ getCart (.value "[1]") (fun _ => .ok (.arr [Json.num 1])) = [Json.num 1] :=
  ⟨by decide,
   (claim_C8 (fun _ => .ok (.arr [Json.num 1])) "[1]").1 [Json.num 1] (by decide) rfl⟩

/-- C10: a missing `variantLabel` and the literal label `"default"` yield
the same identity key `sku ++ "::default"`, so `addToCart` merges across
the two spellings, and `updateCartItem`/`removeCartItem` addressed with
`"default"` hit a line stored without a label. -/
theorem claim_C10 :
    (∀ sku : String, keyOf sku none = sku ++ "::default"
      ∧ keyOf sku (some "default") = keyOf sku none)
  ∧ (∀ i input : CartItem, i.variantLabel = none → input.variantLabel = some "default" →
      input.sku = i.sku →
      addToCart [i] input = [{ i with qty := max 1 (i.qty + max 1 input.qty) }]
      ∧ updateCartItem [i] input.sku (some "default") 0 = []
      ∧ removeCartItem [i] input.sku (some "default") = [])
  ∧ (∀ i input : CartItem, i.variantLabel = some "default" → input.variantLabel = none →
      input.sku = i.sku →
      addToCart [i] input = [{ i with qty := max 1 (i.qty + max 1 input.qty) }]) := by
  refine ⟨fun sku => ⟨by unfold keyOf; rw [String.append_assoc]; congr 1, rfl⟩, ?_, ?_⟩
  · intro i input hv hinv hsku
    have hkey : i.key = input.key := by
      simp [CartItem.key, keyOf, hv, hinv, hsku]
    have hkeyp : i.key = keyOf input.sku (some "default") := by
      simp [CartItem.key, keyOf, hv, hsku]
    refine ⟨by rw [addToCart_cons_eq hkey], ?_, ?_⟩
    · unfold updateCartItem
      simp [hkeyp]
    · unfold removeCartItem
      simp [hkeyp]
  · intro i input hv hinv hsku
    have hkey : i.key = input.key := by
      simp [CartItem.key, keyOf, hv, hinv, hsku]
    rw [addToCart_cons_eq hkey]

/-- Witness for C10 at a concrete pair of items. -/
theorem claim_C10_witness :
    addToCart [{ sku := "A", name := "A", variantLabel := none, qty := 1 }]
        { sku := "A", name := "A", variantLabel := some "default", qty := 2 } =
      [{ sku := "A", name := "A", variantLabel := none, qty := 3 }] := by
  have h := (claim_C10.2.1 { sku := "A", name := "A", variantLabel := none, qty := 1 }
    { sku := "A", name := "A", variantLabel := some "default", qty := 2 } rfl rfl rfl).1
  rw [h]
  decide


/-- C5: with the page size fixed at 9, `totalPages` is exactly
max(1, ceil(filteredCount / 9)) — characterized by `1 ≤ totalPages`,
`count ≤ 9 * totalPages` and `9 * (totalPages - 1) < count` for non-empty
results; `safePage` clamps the requested page into `[1, totalPages]` and
is the identity on in-range pages; `pageItems` is exactly the slice of
the filtered list from `(safePage-1)*9` of width 9; a filter with zero
matches yields one page and an empty slice (never zero pages); and 21
products with no filters give 9 items on page 1, 3 items on page 3 and
3 total pages. -/
theorem claim_C5 :
    (∀ F : List CatalogProduct,
        1 ≤ totalPages F.length
      ∧ F.length ≤ PAGE_SIZE * totalPages F.length
      ∧ (¬ (F = []) → PAGE_SIZE * (totalPages F.length - 1) < F.length))
  ∧ (∀ (F : List CatalogProduct) (page : Int),
        1 ≤ safePage page (totalPages F.length)
      ∧ safePage page (totalPages F.length) ≤ (totalPages F.length : Int)
      ∧ (1 ≤ page → page ≤ (totalPages F.length : Int) →
          safePage page (totalPages F.length) = page))
  ∧ (∀ (F : List CatalogProduct) (sp : Int) (k : Nat),
        (pageItems F sp).length
          = min PAGE_SIZE (F.length - ((sp - 1) * (PAGE_SIZE : Int)).toNat)
      ∧ (k < PAGE_SIZE →
          (pageItems F sp)[k]? = F[((sp - 1) * (PAGE_SIZE : Int)).toNat + k]?))
  ∧ (∀ (items : List CatalogProduct) (q cat : String) (page : Int),
        filteredProducts items q cat = [] →
        totalPages (filteredProducts items q cat).length = 1
      ∧ pageItems (filteredProducts items q cat)
          (safePage page (totalPages (filteredProducts items q cat).length)) = [])
  ∧ (∀ items : List CatalogProduct, items.length = 21 →
        filteredProducts items "" "TODAS" = items
      ∧ totalPages (filteredProducts items "" "TODAS").length = 3
      ∧ (pageItems (filteredProducts items "" "TODAS") (safePage 1 3)).length = 9
      ∧ (pageItems (filteredProducts items "" "TODAS") (safePage 3 3)).length = 3) := by
  refine ⟨?_, ?_, ?_, ?_, ?_⟩
  · intro F
    refine ⟨le_max_left _ _, ?_, ?_⟩
    · unfold totalPages PAGE_SIZE
      rw [Nat.max_def]
      split <;> omega
    · intro hF
      have hlen : F.length ≠ 0 := fun h => hF (List.length_eq_zero.mp h)
      unfold totalPages PAGE_SIZE
      rw [Nat.max_def]
      split <;> omega
  · intro F page
    have h1 : (1 : Int) ≤ (totalPages F.length : Int) := by
      have := le_max_left 1 ((F.length + PAGE_SIZE - 1) / PAGE_SIZE)
      exact_mod_cast this
    unfold safePage clampNum
    refine ⟨le_min (le_max_right _ _) h1, min_le_right _ _, fun hp1 hp2 => ?_⟩
    rw [max_eq_left hp1, min_eq_left hp2]
  · intro F sp k
    constructor
    · unfold pageItems
      rw [List.length_take, List.length_drop]
    · intro hk
      unfold pageItems
      rw [List.getElem?_take_of_lt hk, drop_getElem?]
  · intro items q cat page hF
    rw [hF]
    exact ⟨by decide, by unfold pageItems; simp⟩
  · intro items hlen
    have hfil : filteredProducts items "" "TODAS" = items := by
      unfold filteredProducts
      rw [List.filter_eq_self]
      intro a ha
      rfl
    refine ⟨hfil, ?_, ?_, ?_⟩
    · rw [hfil, hlen]
      decide
    · rw [hfil]
      unfold pageItems
      rw [List.length_take, List.length_drop, hlen]
      decide
    · rw [hfil]
      unfold pageItems
      rw [List.length_take, List.length_drop, hlen]
      decide

/-- Witness for C5 on a concrete 21-product list with empty filters. -/
theorem claim_C5_witness :
    (List.replicate 21 (⟨"1", "s", "n", "d", [], ""⟩ : CatalogProduct)).length = 21
  ∧ totalPages
      ((filteredProducts (List.replicate 21 (⟨"1", "s", "n", "d", [], ""⟩ : CatalogProduct))
        "" "TODAS").length) = 3 :=
  ⟨by simp,
   (claim_C5.2.2.2.2 (List.replicate 21 ⟨"1", "s", "n", "d", [], ""⟩) (by simp)).2.1⟩

set_option maxRecDepth 16384 in
/-- C9: the local-delivery message renders the k-th cart line at position
5 + k (after the five header lines) as
`- <qty>x <name> — <variantLabel-or-"Padrão">`, in the cart's stored
order, and each blank address field appears rendered with the
`(não informado)` placeholder; composing with two lines and a blank
house-number field yields a message containing the house-number field
with the placeholder. -/
theorem claim_C9 (items : List CartItem) (bairro numeroCasa referencia periodo : String) :
    (∀ (k : Nat) (i : CartItem), items[k]? = some i →
      (msgLinesLocal items bairro numeroCasa referencia periodo)[5 + k]? =
        some ("- " ++ toString (max 0 i.qty) ++ "x " ++ i.name ++ " — " ++
          i.variantLabel.getD "Padrão"))
  ∧ (bairro = "" → "- Bairro/Endereço: (não informado)"
      ∈ msgLinesLocal items bairro numeroCasa referencia periodo)
  ∧ (numeroCasa = "" → "- Nº: (não informado)"
      ∈ msgLinesLocal items bairro numeroCasa referencia periodo)
  ∧ (referencia = "" → "- Referência: (não informado)"
      ∈ msgLinesLocal items bairro numeroCasa referencia periodo)
  ∧ (periodo = "" → "- Preferência de período: (não informado)"
      ∈ msgLinesLocal items bairro numeroCasa referencia periodo)
  ∧ strIncludes
      (buildMessageLocal
        [{ sku := "A", name := "Produto A", variantLabel := some "250g", qty := 1 },
         { sku := "B", name := "Produto B", qty := 2 }]
        "Centro" "" "perto da praça" "manhã")
      "- Nº: (não informado)" = true := by
  refine ⟨?_, ?_, ?_, ?_, ?_, by decide⟩
  · intro k i hik
    have hk : k < items.length := by
      by_contra hcon
      rw [List.getElem?_eq_none (by omega)] at hik
      exact Option.noConfusion hik
    unfold msgLinesLocal
    rw [List.append_assoc,
      List.getElem?_append_right (by simp : (5 : Nat) ≤ 5 + k)]
    have h5 : 5 + k - 5 = k := by omega
    simp only [List.length_cons, List.length_nil, h5]
    rw [List.getElem?_append_left (by simpa using hk), List.getElem?_map, hik]
    rfl
  · intro hb
    have he : ("- Bairro/Endereço: " ++ orNotInformed bairro : String)
        = "- Bairro/Endereço: (não informado)" := by
      rw [orNotInformed, if_pos hb]
      decide
    unfold msgLinesLocal
    rw [he]
    simp
  · intro hb
    have he : ("- Nº: " ++ orNotInformed numeroCasa : String)
        = "- Nº: (não informado)" := by
      rw [orNotInformed, if_pos hb]
      decide
    unfold msgLinesLocal
    rw [he]
    simp
  · intro hb
    have he : ("- Referência: " ++ orNotInformed referencia : String)
        = "- Referência: (não informado)" := by
      rw [orNotInformed, if_pos hb]
      decide
    unfold msgLinesLocal
    rw [he]
    simp
  · intro hb
    have he : ("- Preferência de período: " ++ orNotInformed periodo : String)
        = "- Preferência de período: (não informado)" := by
      rw [orNotInformed, if_pos hb]
      decide
    unfold msgLinesLocal
    rw [he]
    simp

/-- Witness for C9 at a concrete one-line cart with a blank house number. -/
theorem claim_C9_witness :
    ([({ sku := "A", name := "Produto A", variantLabel := some "250g", qty := 1 } : CartItem)][0]?
      = some { sku := "A", name := "Produto A", variantLabel := some "250g", qty := 1 })
  ∧ (msgLinesLocal [{ sku := "A", name := "Produto A", variantLabel := some "250g", qty := 1 }]
      "Centro" "" "x" "manhã")[5 + 0]? =
      some ("- " ++ toString (max 0 (1 : Int)) ++ "x " ++ "Produto A" ++ " — " ++
        (some "250g").getD "Padrão") :=
  ⟨rfl,
   (claim_C9 [{ sku := "A", name := "Produto A", variantLabel := some "250g", qty := 1 }]
     "Centro" "" "x" "manhã").1 0 _ rfl⟩


end AFStore
